import Mathlib

/-!
Verification of the PGN movetext-processing pipeline of
`pgn4people_poc_demo/process_pgn_file.py`.

Strings are embedded as `List Char`; a Python character index is a `Nat`.
Python's `str.find(c, start)` (which returns `-1` on failure) is embedded as
`pyFind`, returning an `Int` with the same `-1` convention.  The fatal-error
helpers (`fatal_pgn_error`), which terminate the process and never return, are
embedded by giving each fallible function the return type `Except PGNFault _`:
an `Except.error` value marks the abort, carrying the index information that
the source interpolates into its error message.
-/

namespace PGN4People

/-- The fatal PGN faults raised by the pipeline.  Each corresponds to one
`fatal_pgn_error` call site; the `Nat` payloads are the character indices that
the source embeds in the error message text. -/
inductive PGNFault where
  | noBlankLineAfterHeaders : PGNFault
  | emptyMovetext : PGNFault
  | unmatchedOpeningDelimiter (index : Nat) : PGNFault
  | unexpectedClosingDelimiter (index : Nat) : PGNFault
deriving DecidableEq

/-- The opening annotation delimiter: the local `left_brace = "{"` of
`strip_balanced_braces_from_string`. -/
def left_brace : Char := '\x7b'

/-- The closing annotation delimiter: the local `right_brace = "}"` of
`strip_balanced_braces_from_string`. -/
def right_brace : Char := '\x7d'

/-- Python slicing `s[a:b]` for non-negative bounds. -/
def pySlice (s : List Char) (a b : Nat) : List Char := (s.take b).drop a

/-- Helper for `pyFind`: scans the list left to right, reporting the absolute
index (the counter `i`) of the first occurrence of `c`. -/
def findFromAux (c : Char) : List Char → Nat → Option Nat
  | [], _ => none
  | x :: xs, i => if x = c then some i else findFromAux c xs (i + 1)

/-- Python's `string.find(c, start)`: the smallest index `≥ start` at which
character `c` occurs, or `-1` if there is none. -/
def pyFind (s : List Char) (c : Char) (start : Nat) : Int :=
  match findFromAux c (s.drop start) start with
  | none => -1
  | some n => (n : Int)

/-- `scan_for_next_brace` from the source: searches for the next brace,
whether right or left, beginning at `string_to_scan[index_to_start_scan]`.
Returns `(index_found, is_right_brace, is_left_brace)`, with
`index_found = -1` and both flags `false` when no brace of either kind
occurs at or after the start index. -/
def scan_for_next_brace (string_to_scan : List Char) (index_to_start_scan : Nat)
    (left_brace right_brace : Char) : Int × Bool × Bool :=
  let index_left_brace_found := pyFind string_to_scan left_brace index_to_start_scan
  let index_right_brace_found := pyFind string_to_scan right_brace index_to_start_scan
  if index_right_brace_found = -1 then
    if index_left_brace_found = -1 then
      (-1, false, false)
    else
      (index_left_brace_found, false, true)
  else
    if index_left_brace_found = -1 then
      (index_right_brace_found, true, false)
    else if index_right_brace_found < index_left_brace_found then
      (index_right_brace_found, true, false)
    else
      (index_left_brace_found, false, true)

/-- No opening or closing brace occurs anywhere in `l`. -/
def brace_free (l : List Char) : Prop := ∀ c ∈ l, c ≠ left_brace ∧ c ≠ right_brace

instance (l : List Char) : Decidable (brace_free l) :=
  inferInstanceAs (Decidable (∀ c ∈ l, c ≠ left_brace ∧ c ≠ right_brace))

/-- No brace occurs at any index `≥ b` of `s`. -/
def no_brace_from (s : List Char) (b : Nat) : Prop :=
  ∀ j, b ≤ j → s[j]? ≠ some left_brace ∧ s[j]? ≠ some right_brace

/-- No brace occurs at any index in the half-open interval `[a, e)` of `s`. -/
def no_brace_between (s : List Char) (a e : Nat) : Prop :=
  ∀ j, a ≤ j → j < e → s[j]? ≠ some left_brace ∧ s[j]? ≠ some right_brace

theorem findFromAux_eq_some_iff (c : Char) (l : List Char) : ∀ i n : Nat,
    findFromAux c l i = some n ↔
      ∃ k : Nat, n = i + k ∧ l[k]? = some c ∧ ∀ m : Nat, m < k → l[m]? ≠ some c := by
  induction l with
  | nil =>
    intro i n
    simp [findFromAux]
  | cons x xs ih =>
    intro i n
    constructor
    · intro h
      rw [findFromAux] at h
      by_cases hx : x = c
      · rw [if_pos hx] at h
        obtain rfl : i = n := Option.some.inj h
        exact ⟨0, by omega, by simp [hx], by omega⟩
      · rw [if_neg hx] at h
        obtain ⟨k, hk1, hk2, hk3⟩ := (ih (i + 1) n).mp h
        refine ⟨k + 1, by omega, by simpa using hk2, ?_⟩
        intro m hm
        rcases m with _ | m
        · simpa using hx
        · simpa using hk3 m (by omega)
    · rintro ⟨k, rfl, hk2, hk3⟩
      rw [findFromAux]
      by_cases hx : x = c
      · rw [if_pos hx]
        rcases k with _ | k
        · simp
        · exact absurd (by simp [hx]) (hk3 0 (by omega))
      · rw [if_neg hx]
        rcases k with _ | k
        · exact absurd (by simpa using hk2) hx
        · refine (ih (i + 1) (i + (k + 1))).mpr ⟨k, by omega, by simpa using hk2, ?_⟩
          intro m hm
          simpa using hk3 (m + 1) (by omega)

theorem findFromAux_eq_none_iff (c : Char) (l : List Char) : ∀ i : Nat,
    findFromAux c l i = none ↔ ∀ k : Nat, l[k]? ≠ some c := by
  induction l with
  | nil =>
    intro i
    simp [findFromAux]
  | cons x xs ih =>
    intro i
    rw [findFromAux]
    by_cases hx : x = c
    · rw [if_pos hx]
      constructor
      · intro h
        exact absurd h (by simp)
      · intro h
        exact absurd (by simp [hx]) (h 0)
    · rw [if_neg hx, ih (i + 1)]
      constructor
      · intro h k
        rcases k with _ | k
        · simpa using hx
        · simpa using h k
      · intro h k
        simpa using h (k + 1)

theorem pyFind_eq_neg_one_iff (s : List Char) (c : Char) (st : Nat) :
    pyFind s c st = -1 ↔ ∀ j : Nat, st ≤ j → s[j]? ≠ some c := by
  unfold pyFind
  rcases hf : findFromAux c (s.drop st) st with _ | n
  · rw [findFromAux_eq_none_iff] at hf
    dsimp only
    constructor
    · intro _ j hj
      have hd := hf (j - st)
      rwa [List.getElem?_drop, show st + (j - st) = j by omega] at hd
    · intro
      rfl
  · rw [findFromAux_eq_some_iff] at hf
    obtain ⟨k, rfl, hk, -⟩ := hf
    rw [List.getElem?_drop] at hk
    dsimp only
    constructor
    · intro h
      exact absurd h (by omega)
    · intro h
      exact absurd hk (h (st + k) (by omega))

theorem pyFind_eq_ofNat_iff (s : List Char) (c : Char) (st n : Nat) :
    pyFind s c st = (n : Int) ↔
      st ≤ n ∧ s[n]? = some c ∧ ∀ j : Nat, st ≤ j → j < n → s[j]? ≠ some c := by
  unfold pyFind
  rcases hf : findFromAux c (s.drop st) st with _ | m
  · rw [findFromAux_eq_none_iff] at hf
    dsimp only
    constructor
    · intro h
      exact absurd h (by omega)
    · rintro ⟨h1, h2, -⟩
      have hd := hf (n - st)
      rw [List.getElem?_drop, show st + (n - st) = n by omega] at hd
      exact absurd h2 hd
  · rw [findFromAux_eq_some_iff] at hf
    obtain ⟨k, rfl, hk, hmin⟩ := hf
    rw [List.getElem?_drop] at hk
    dsimp only
    constructor
    · intro h
      have hn : st + k = n := by omega
      subst hn
      refine ⟨by omega, hk, ?_⟩
      intro j h1 h2
      have hd := hmin (j - st) (by omega)
      rwa [List.getElem?_drop, show st + (j - st) = j by omega] at hd
    · rintro ⟨h1, h2, hmin'⟩
      have hkn : st + k = n := by
        rcases Nat.lt_trichotomy (st + k) n with h | h | h
        · exact absurd hk (hmin' (st + k) (by omega) h)
        · exact h
        · have hd := hmin (n - st) (by omega)
          rw [List.getElem?_drop, show st + (n - st) = n by omega] at hd
          exact absurd h2 hd
      rw [hkn]

theorem pyFind_shape (s : List Char) (c : Char) (st : Nat) :
    pyFind s c st = -1 ∨ ∃ n : Nat, pyFind s c st = (n : Int) := by
  unfold pyFind
  rcases findFromAux c (s.drop st) st with _ | n
  · exact Or.inl rfl
  · exact Or.inr ⟨n, rfl⟩

theorem getElem?_lt_length {s : List Char} {n : Nat} {c : Char} (h : s[n]? = some c) :
    n < s.length := by
  by_contra hn
  rw [List.getElem?_eq_none (by omega)] at h
  exact absurd h (by simp)

/-- Full characterization of `scan_for_next_brace` at the actual delimiters:
either there is no brace at or after the start index and the scan reports
`(-1, false, false)`, or the scan returns the first brace position together
with the flag for its kind. -/
theorem scan_cases (s : List Char) (b : Nat) :
    (scan_for_next_brace s b left_brace right_brace = (-1, false, false) ∧ no_brace_from s b)
    ∨ ∃ n : Nat, b ≤ n ∧ n < s.length ∧ no_brace_between s b n ∧
        ((s[n]? = some right_brace ∧
            scan_for_next_brace s b left_brace right_brace = ((n : Int), true, false))
         ∨ (s[n]? = some left_brace ∧
            scan_for_next_brace s b left_brace right_brace = ((n : Int), false, true))) := by
  rcases pyFind_shape s left_brace b with hL | ⟨nl, hL⟩ <;>
    rcases pyFind_shape s right_brace b with hR | ⟨nr, hR⟩
  · left
    have hL' := (pyFind_eq_neg_one_iff s left_brace b).mp hL
    have hR' := (pyFind_eq_neg_one_iff s right_brace b).mp hR
    constructor
    · simp [scan_for_next_brace, hL, hR]
    · intro j hj
      exact ⟨hL' j hj, hR' j hj⟩
  · obtain ⟨hbr, hgetr, hminr⟩ := (pyFind_eq_ofNat_iff s right_brace b nr).mp hR
    have hLn := (pyFind_eq_neg_one_iff s left_brace b).mp hL
    right
    refine ⟨nr, hbr, getElem?_lt_length hgetr, ?_, Or.inl ⟨hgetr, ?_⟩⟩
    · intro j h1 h2
      exact ⟨hLn j h1, hminr j h1 h2⟩
    · have c1 : ¬((nr : Int) = -1) := by omega
      simp [scan_for_next_brace, hL, hR, c1]
  · obtain ⟨hbl, hgetl, hminl⟩ := (pyFind_eq_ofNat_iff s left_brace b nl).mp hL
    have hRn := (pyFind_eq_neg_one_iff s right_brace b).mp hR
    right
    refine ⟨nl, hbl, getElem?_lt_length hgetl, ?_, Or.inr ⟨hgetl, ?_⟩⟩
    · intro j h1 h2
      exact ⟨hminl j h1 h2, hRn j h1⟩
    · have c1 : ¬((nl : Int) = -1) := by omega
      simp [scan_for_next_brace, hL, hR, c1]
  · obtain ⟨hbl, hgetl, hminl⟩ := (pyFind_eq_ofNat_iff s left_brace b nl).mp hL
    obtain ⟨hbr, hgetr, hminr⟩ := (pyFind_eq_ofNat_iff s right_brace b nr).mp hR
    have hne : nl ≠ nr := by
      intro h
      rw [h, hgetr] at hgetl
      exact absurd (Option.some.inj hgetl) (by decide)
    rcases lt_or_gt_of_ne hne with hlt | hgt
    · right
      refine ⟨nl, hbl, getElem?_lt_length hgetl, ?_, Or.inr ⟨hgetl, ?_⟩⟩
      · intro j h1 h2
        exact ⟨hminl j h1 h2, hminr j h1 (by omega)⟩
      · have c1 : ¬((nr : Int) = -1) := by omega
        have c2 : ¬((nl : Int) = -1) := by omega
        have c3 : ¬((nr : Int) < (nl : Int)) := by omega
        simp [scan_for_next_brace, hL, hR, c1, c2, c3]
    · right
      refine ⟨nr, hbr, getElem?_lt_length hgetr, ?_, Or.inl ⟨hgetr, ?_⟩⟩
      · intro j h1 h2
        exact ⟨hminl j h1 (by omega), hminr j h1 h2⟩
      · have c1 : ¬((nr : Int) = -1) := by omega
        have c2 : ¬((nl : Int) = -1) := by omega
        have c3 : ((nr : Int) < (nl : Int)) := by omega
        simp [scan_for_next_brace, hL, hR, c1, c2, c3]

theorem scan_eq_none_of (s : List Char) (b : Nat) (h : no_brace_from s b) :
    scan_for_next_brace s b left_brace right_brace = (-1, false, false) := by
  rcases scan_cases s b with ⟨he, -⟩ | ⟨n, hbn, hlen, -, hc⟩
  · exact he
  · exfalso
    rcases hc with ⟨hg, -⟩ | ⟨hg, -⟩
    · exact (h n hbn).2 hg
    · exact (h n hbn).1 hg

theorem scan_eq_right_of (s : List Char) (b n : Nat) (hbn : b ≤ n)
    (hg : s[n]? = some right_brace) (hnb : no_brace_between s b n) :
    scan_for_next_brace s b left_brace right_brace = ((n : Int), true, false) := by
  rcases scan_cases s b with ⟨-, hnone⟩ | ⟨m, hbm, hlen, hmin, hc⟩
  · exact absurd hg (hnone n hbn).2
  · have hmn : m = n := by
      rcases Nat.lt_trichotomy m n with h1 | h1 | h1
      · exfalso
        rcases hc with ⟨hgm, -⟩ | ⟨hgm, -⟩
        · exact (hnb m hbm h1).2 hgm
        · exact (hnb m hbm h1).1 hgm
      · exact h1
      · exact absurd hg (hmin n hbn h1).2
    subst hmn
    rcases hc with ⟨-, he⟩ | ⟨hgm, -⟩
    · exact he
    · rw [hg] at hgm
      exact absurd (Option.some.inj hgm) (by decide)

theorem scan_eq_left_of (s : List Char) (b n : Nat) (hbn : b ≤ n)
    (hg : s[n]? = some left_brace) (hnb : no_brace_between s b n) :
    scan_for_next_brace s b left_brace right_brace = ((n : Int), false, true) := by
  rcases scan_cases s b with ⟨-, hnone⟩ | ⟨m, hbm, hlen, hmin, hc⟩
  · exact absurd hg (hnone n hbn).1
  · have hmn : m = n := by
      rcases Nat.lt_trichotomy m n with h1 | h1 | h1
      · exfalso
        rcases hc with ⟨hgm, -⟩ | ⟨hgm, -⟩
        · exact (hnb m hbm h1).2 hgm
        · exact (hnb m hbm h1).1 hgm
      · exact h1
      · exact absurd hg (hmin n hbn h1).1
    subst hmn
    rcases hc with ⟨hgm, -⟩ | ⟨-, he⟩
    · rw [hg] at hgm
      exact absurd (Option.some.inj hgm) (by decide)
    · exact he

theorem mem_drop_iff {s : List Char} {b : Nat} {c : Char} :
    c ∈ s.drop b ↔ ∃ j : Nat, b ≤ j ∧ s[j]? = some c := by
  rw [List.mem_iff_getElem?]
  constructor
  · rintro ⟨k, hk⟩
    rw [List.getElem?_drop] at hk
    exact ⟨b + k, by omega, hk⟩
  · rintro ⟨j, hj, hget⟩
    refine ⟨j - b, ?_⟩
    rw [List.getElem?_drop, show b + (j - b) = j by omega]
    exact hget

theorem mem_pySlice_iff {s : List Char} {a e : Nat} {c : Char} :
    c ∈ pySlice s a e ↔ ∃ j : Nat, a ≤ j ∧ j < e ∧ s[j]? = some c := by
  unfold pySlice
  rw [List.mem_iff_getElem?]
  constructor
  · rintro ⟨k, hk⟩
    rw [List.getElem?_drop, List.getElem?_take] at hk
    by_cases h : a + k < e
    · rw [if_pos h] at hk
      exact ⟨a + k, by omega, h, hk⟩
    · rw [if_neg h] at hk
      exact absurd hk (by simp)
  · rintro ⟨j, h1, h2, hget⟩
    refine ⟨j - a, ?_⟩
    rw [List.getElem?_drop, List.getElem?_take, show a + (j - a) = j by omega, if_pos h2]
    exact hget

theorem no_brace_from_iff (s : List Char) (b : Nat) :
    no_brace_from s b ↔ brace_free (s.drop b) := by
  constructor
  · intro h c hc
    obtain ⟨j, hj, hget⟩ := mem_drop_iff.mp hc
    constructor
    · intro he
      subst he
      exact (h j hj).1 hget
    · intro he
      subst he
      exact (h j hj).2 hget
  · intro h j hj
    constructor
    · intro hget
      exact (h left_brace (mem_drop_iff.mpr ⟨j, hj, hget⟩)).1 rfl
    · intro hget
      exact (h right_brace (mem_drop_iff.mpr ⟨j, hj, hget⟩)).2 rfl

theorem no_brace_between_iff (s : List Char) (a e : Nat) :
    no_brace_between s a e ↔ brace_free (pySlice s a e) := by
  constructor
  · intro h c hc
    obtain ⟨j, hj1, hj2, hget⟩ := mem_pySlice_iff.mp hc
    constructor
    · intro he
      subst he
      exact (h j hj1 hj2).1 hget
    · intro he
      subst he
      exact (h j hj1 hj2).2 hget
  · intro h j hj1 hj2
    constructor
    · intro hget
      exact (h left_brace (mem_pySlice_iff.mpr ⟨j, hj1, hj2, hget⟩)).1 rfl
    · intro hget
      exact (h right_brace (mem_pySlice_iff.mpr ⟨j, hj1, hj2, hget⟩)).2 rfl

/-- The `while net_left_braces > 0` loop inside
`skip_over_remainder_of_balanced_expression`.  Loop state: `base_index_for_search`
and `net_left_braces` (a Python int).  `index_after_first_left_brace` is the
argument of the enclosing function; it is used only in the fault raised when
the string ends before brace balance is restored.  One iteration scans for the
next brace; if none exists the loop aborts with `UnmatchedOpeningDelimiter`
at `index_after_first_left_brace - 1` (the index of the opening brace);
otherwise it updates the imbalance counter and either loops (counter still
positive) or returns the index of the brace that restored balance. -/
def skipLoop (string_to_strip : List Char) (index_after_first_left_brace : Nat)
    (base_index_for_search : Nat) (net_left_braces : Int) : Except PGNFault Nat :=
  let search_result :=
    scan_for_next_brace string_to_strip base_index_for_search left_brace right_brace
  if hfound : search_result.1 = -1 then
    Except.error (PGNFault.unmatchedOpeningDelimiter (index_after_first_left_brace - 1))
  else
    let net2 :=
      if search_result.2.1 then net_left_braces - 1
      else if search_result.2.2 then net_left_braces + 1
      else net_left_braces
    if 0 < net2 then
      skipLoop string_to_strip index_after_first_left_brace (search_result.1.toNat + 1) net2
    else
      Except.ok search_result.1.toNat
termination_by string_to_strip.length - base_index_for_search
decreasing_by
  rcases scan_cases string_to_strip base_index_for_search with ⟨he, -⟩ | ⟨n, h1, h2, -, hc⟩
  · exact absurd (by unfold search_result; rw [he]) hfound
  · rcases hc with ⟨-, he⟩ | ⟨-, he⟩ <;> rw [he] <;> simp <;> omega

/-- `skip_over_remainder_of_balanced_expression` from the source: called
immediately after a left brace was encountered at index
`index_after_first_left_brace - 1`, with braces balanced before it.  Sets
`net_left_braces = 1` and `base_index_for_search = index_after_first_left_brace`
and runs the scanning loop.  Returns the index of the right brace that ends
the brace-balanced expression, or aborts with `UnmatchedOpeningDelimiter`
(the source's `fatal_pgn_error`, which never returns). -/
def skip_over_remainder_of_balanced_expression (string_to_strip : List Char)
    (index_after_first_left_brace : Nat) : Except PGNFault Nat :=
  skipLoop string_to_strip index_after_first_left_brace index_after_first_left_brace 1

theorem skipLoop_none_step (s : List Char) (ia b : Nat) (net : Int)
    (h : (scan_for_next_brace s b left_brace right_brace).1 = -1) :
    skipLoop s ia b net = Except.error (PGNFault.unmatchedOpeningDelimiter (ia - 1)) := by
  rw [skipLoop.eq_def]
  simp [h]

theorem skipLoop_right_step (s : List Char) (ia b n : Nat) (net : Int)
    (h : scan_for_next_brace s b left_brace right_brace = ((n : Int), true, false)) :
    skipLoop s ia b net =
      if 0 < net - 1 then skipLoop s ia (n + 1) (net - 1) else Except.ok n := by
  have hne : ¬((n : Int) = -1) := by omega
  rw [skipLoop.eq_def]
  simp [h, hne]

theorem skipLoop_left_step (s : List Char) (ia b n : Nat) (net : Int)
    (h : scan_for_next_brace s b left_brace right_brace = ((n : Int), false, true)) :
    skipLoop s ia b net =
      if 0 < net + 1 then skipLoop s ia (n + 1) (net + 1) else Except.ok n := by
  have hne : ¬((n : Int) = -1) := by omega
  rw [skipLoop.eq_def]
  simp [h, hne]

theorem skipLoop_ok_bounds (s : List Char) : ∀ fuel b ia : Nat, ∀ net : Int, ∀ r : Nat,
    s.length - b ≤ fuel → skipLoop s ia b net = Except.ok r → b ≤ r ∧ r < s.length := by
  intro fuel
  induction fuel with
  | zero =>
    intro b ia net r hf hok
    have hnb : no_brace_from s b := by
      intro j hj
      constructor <;> intro hget <;> exact absurd (getElem?_lt_length hget) (by omega)
    have hscan := scan_eq_none_of s b hnb
    rw [skipLoop_none_step s ia b net (by rw [hscan])] at hok
    exact absurd hok (by simp)
  | succ fuel ih =>
    intro b ia net r hf hok
    rcases scan_cases s b with ⟨he, -⟩ | ⟨n, h1, h2, -, hc⟩
    · rw [skipLoop_none_step s ia b net (by rw [he])] at hok
      exact absurd hok (by simp)
    · rcases hc with ⟨-, he⟩ | ⟨-, he⟩
      · rw [skipLoop_right_step s ia b n net he] at hok
        by_cases hpos : 0 < net - 1
        · rw [if_pos hpos] at hok
          have hr := ih (n + 1) ia (net - 1) r (by omega) hok
          omega
        · rw [if_neg hpos] at hok
          have hnr : n = r := Except.ok.inj hok
          omega
      · rw [skipLoop_left_step s ia b n net he] at hok
        by_cases hpos : 0 < net + 1
        · rw [if_pos hpos] at hok
          have hr := ih (n + 1) ia (net + 1) r (by omega) hok
          omega
        · rw [if_neg hpos] at hok
          have hnr : n = r := Except.ok.inj hok
          omega

theorem skip_over_ok_bounds {s : List Char} {ia r : Nat}
    (h : skip_over_remainder_of_balanced_expression s ia = Except.ok r) :
    ia ≤ r ∧ r < s.length :=
  skipLoop_ok_bounds s (s.length - ia) ia ia 1 r (le_refl _) h

/-- The inner helper `save_current_substring(start, end)` of
`strip_balanced_braces_from_string`: appends the slice
`string_to_strip[start:end]` to `list_of_substrings` when `end >= start`,
otherwise returns with no action. -/
def save_current_substring (string_to_strip : List Char) (list_of_substrings : List (List Char))
    (start stop : Nat) : List (List Char) :=
  if start ≤ stop then list_of_substrings ++ [pySlice string_to_strip start stop]
  else list_of_substrings

/-- The main `while beginning_of_current_substring < len(string_to_strip)` loop
of `strip_balanced_braces_from_string`.  Each iteration is entered only in a
balanced-brace state.  It scans for the next brace: a right brace aborts with
`UnexpectedClosingDelimiter` at its index; no brace saves the remaining
substring and exits the loop; a left brace saves the substring leading up to
it, skips over the brace-balanced expression, and continues just after it. -/
def stripLoop (string_to_strip : List Char) (beginning_of_current_substring : Nat)
    (list_of_substrings : List (List Char)) : Except PGNFault (List (List Char)) :=
  if hlt : beginning_of_current_substring < string_to_strip.length then
    let search_result :=
      scan_for_next_brace string_to_strip beginning_of_current_substring left_brace right_brace
    if search_result.2.1 then
      Except.error (PGNFault.unexpectedClosingDelimiter search_result.1.toNat)
    else if hfound : search_result.1 = -1 then
      Except.ok (save_current_substring string_to_strip list_of_substrings
        beginning_of_current_substring string_to_strip.length)
    else
      -- Here `search_result.1 ≠ -1` and `is_right_brace = false`; by `scan_cases`
      -- the remaining flag `is_left_brace` is necessarily true, so this branch is
      -- the `if is_left_brace:` branch of the source.
      match hskip : skip_over_remainder_of_balanced_expression string_to_strip
          (search_result.1.toNat + 1) with
      | Except.error e => Except.error e
      | Except.ok index_end =>
          stripLoop string_to_strip (index_end + 1)
            (save_current_substring string_to_strip list_of_substrings
              beginning_of_current_substring search_result.1.toNat)
  else
    Except.ok list_of_substrings
termination_by string_to_strip.length - beginning_of_current_substring
decreasing_by
  have hb := skip_over_ok_bounds hskip
  unfold search_result at hb
  rcases scan_cases string_to_strip beginning_of_current_substring with
    ⟨he, -⟩ | ⟨n, h1, h2, -, hc⟩
  · exact absurd (by unfold search_result; rw [he]) hfound
  · rcases hc with ⟨-, he⟩ | ⟨-, he⟩ <;> rw [he] at hb <;> simp at hb <;> omega

/-- `strip_balanced_braces_from_string`: removes all balanced-braced
expressions from the string and returns the new stripped string (the saved
substrings joined in order), or aborts with a fault on unbalanced braces. -/
def strip_balanced_braces_from_string (string_to_strip : List Char) :
    Except PGNFault (List Char) :=
  Except.map List.flatten (stripLoop string_to_strip 0 [])

theorem stripLoop_exit_step (s : List Char) (b : Nat) (acc : List (List Char))
    (h : ¬ b < s.length) : stripLoop s b acc = Except.ok acc := by
  rw [stripLoop.eq_def]
  simp [h]

theorem stripLoop_right_step (s : List Char) (b n : Nat) (acc : List (List Char))
    (hlt : b < s.length)
    (h : scan_for_next_brace s b left_brace right_brace = ((n : Int), true, false)) :
    stripLoop s b acc = Except.error (PGNFault.unexpectedClosingDelimiter n) := by
  rw [stripLoop.eq_def]
  simp [hlt, h]

theorem stripLoop_none_step (s : List Char) (b : Nat) (acc : List (List Char))
    (hlt : b < s.length)
    (h : scan_for_next_brace s b left_brace right_brace = (-1, false, false)) :
    stripLoop s b acc = Except.ok (save_current_substring s acc b s.length) := by
  rw [stripLoop.eq_def]
  simp [hlt, h]

theorem stripLoop_left_step_error (s : List Char) (b n : Nat) (acc : List (List Char))
    (e : PGNFault) (hlt : b < s.length)
    (h : scan_for_next_brace s b left_brace right_brace = ((n : Int), false, true))
    (hsk : skip_over_remainder_of_balanced_expression s (n + 1) = Except.error e) :
    stripLoop s b acc = Except.error e := by
  have hne : ¬((n : Int) = -1) := by omega
  rw [stripLoop.eq_def]
  simp only [hlt, h, hne]
  simp
  split
  next e2 heq =>
    rw [h] at heq
    simp only [Int.toNat_ofNat] at heq
    rw [heq] at hsk
    have he2 : e2 = e := Except.error.inj hsk
    rw [he2]
  next r2 heq =>
    rw [h] at heq
    simp only [Int.toNat_ofNat] at heq
    rw [heq] at hsk
    exact absurd hsk (by simp)

theorem stripLoop_left_step_ok (s : List Char) (b n r : Nat) (acc : List (List Char))
    (hlt : b < s.length)
    (h : scan_for_next_brace s b left_brace right_brace = ((n : Int), false, true))
    (hsk : skip_over_remainder_of_balanced_expression s (n + 1) = Except.ok r) :
    stripLoop s b acc = stripLoop s (r + 1) (save_current_substring s acc b n) := by
  have hne : ¬((n : Int) = -1) := by omega
  rw [stripLoop.eq_def]
  simp only [hlt, h, hne]
  simp
  split
  next e2 heq =>
    rw [h] at heq
    simp only [Int.toNat_ofNat] at heq
    rw [heq] at hsk
    exact absurd hsk (by simp)
  next r2 heq =>
    rw [h] at heq
    simp only [Int.toNat_ofNat] at heq
    rw [heq] at hsk
    have hrr : r2 = r := Except.ok.inj hsk
    rw [hrr]

/-- Specification-side description of the brace stripper (spec §4.2 step 3 and
§8): walk the string left to right with an explicit nesting depth, keep the
characters at depth 0, treat `{` as entering a deeper nesting level and `}` as
leaving one, and fail (`none`) on a `}` at depth 0 or on end of input at
positive depth.  Thus `spec_stripped_text s 0 = some out` says the
brace-delimited spans of `s` are balanced and `out` is the concatenation, in
source order, of exactly the characters outside every top-level span, each
full (possibly nested) span from its opening brace through its matching
closing brace omitted entirely. -/
def spec_stripped_text : List Char → Nat → Option (List Char)
  | [], 0 => some []
  | [], _ + 1 => none
  | c :: rest, 0 =>
      if c = left_brace then spec_stripped_text rest 1
      else if c = right_brace then none
      else Option.map (fun t => c :: t) (spec_stripped_text rest 0)
  | c :: rest, d + 1 =>
      if c = left_brace then spec_stripped_text rest (d + 2)
      else if c = right_brace then spec_stripped_text rest d
      else spec_stripped_text rest (d + 1)

theorem drop_eq_cons_of_getElem? {s : List Char} {n : Nat} {c : Char} (h : s[n]? = some c) :
    s.drop n = c :: s.drop (n + 1) := by
  obtain ⟨hlt, hg⟩ := List.getElem?_eq_some.mp h
  rw [List.drop_eq_getElem_cons hlt, hg]

theorem pySlice_self (s : List Char) (a : Nat) : pySlice s a a = [] := by
  unfold pySlice
  apply List.drop_eq_nil_of_le
  rw [List.length_take]
  omega

theorem pySlice_cons {s : List Char} {a e : Nat} (ha : a < s.length) (hae : a < e) :
    pySlice s a e = s[a] :: pySlice s (a + 1) e := by
  unfold pySlice
  have hlt : a < (s.take e).length := by
    rw [List.length_take]
    omega
  rw [List.drop_eq_getElem_cons hlt]
  congr 1
  exact List.getElem_take s

theorem spec_skip_of_no_brace (s : List Char) (d : Nat) : ∀ k b : Nat,
    b + k ≤ s.length → no_brace_between s b (b + k) →
    spec_stripped_text (s.drop b) (d + 1) = spec_stripped_text (s.drop (b + k)) (d + 1) := by
  intro k
  induction k with
  | zero =>
    intro b _ _
    rfl
  | succ k ih =>
    intro b hle hnb
    have hb : b < s.length := by omega
    have hg : s[b]? = some s[b] := List.getElem?_eq_getElem hb
    have hnbb := hnb b (le_refl b) (by omega)
    have h1 : ¬(s[b] = left_brace) := by
      intro hc
      rw [hc] at hg
      exact hnbb.1 hg
    have h2 : ¬(s[b] = right_brace) := by
      intro hc
      rw [hc] at hg
      exact hnbb.2 hg
    rw [drop_eq_cons_of_getElem? hg]
    simp only [spec_stripped_text]
    rw [if_neg h1, if_neg h2]
    rw [show b + (k + 1) = (b + 1) + k by omega]
    exact ih (b + 1) (by omega) (fun j hj1 hj2 => hnb j (by omega) (by omega))

theorem spec_keep_of_no_brace (s : List Char) : ∀ k b : Nat,
    b + k ≤ s.length → no_brace_between s b (b + k) →
    spec_stripped_text (s.drop b) 0 =
      Option.map (fun t => pySlice s b (b + k) ++ t) (spec_stripped_text (s.drop (b + k)) 0) := by
  intro k
  induction k with
  | zero =>
    intro b _ _
    show spec_stripped_text (s.drop b) 0 =
      Option.map (fun t => pySlice s b b ++ t) (spec_stripped_text (s.drop b) 0)
    rw [pySlice_self]
    cases spec_stripped_text (s.drop b) 0 <;> simp
  | succ k ih =>
    intro b hle hnb
    have hb : b < s.length := by omega
    have hg : s[b]? = some s[b] := List.getElem?_eq_getElem hb
    have hnbb := hnb b (le_refl b) (by omega)
    have h1 : ¬(s[b] = left_brace) := by
      intro hc
      rw [hc] at hg
      exact hnbb.1 hg
    have h2 : ¬(s[b] = right_brace) := by
      intro hc
      rw [hc] at hg
      exact hnbb.2 hg
    rw [drop_eq_cons_of_getElem? hg]
    simp only [spec_stripped_text]
    rw [if_neg h1, if_neg h2]
    rw [show b + (k + 1) = (b + 1) + k by omega]
    rw [ih (b + 1) (by omega) (fun j hj1 hj2 => hnb j (by omega) (by omega))]
    rw [pySlice_cons hb (by omega)]
    cases spec_stripped_text (s.drop ((b + 1) + k)) 0 <;> simp

theorem spec_cons_right_pos (s : List Char) (n d : Nat) :
    spec_stripped_text (right_brace :: s.drop (n + 1)) (d + 1) =
      spec_stripped_text (s.drop (n + 1)) d := by
  simp only [spec_stripped_text]
  rw [if_neg (by decide)]
  simp

theorem spec_cons_left_pos (s : List Char) (n d : Nat) :
    spec_stripped_text (left_brace :: s.drop (n + 1)) (d + 1) =
      spec_stripped_text (s.drop (n + 1)) (d + 2) := by
  simp only [spec_stripped_text]
  simp

theorem spec_cons_right_zero (s : List Char) (n : Nat) :
    spec_stripped_text (right_brace :: s.drop (n + 1)) 0 = none := by
  simp only [spec_stripped_text]
  rw [if_neg (by decide)]
  simp

theorem spec_cons_left_zero (s : List Char) (n : Nat) :
    spec_stripped_text (left_brace :: s.drop (n + 1)) 0 =
      spec_stripped_text (s.drop (n + 1)) 1 := by
  simp only [spec_stripped_text]
  simp

/-- Refinement of the inner loop: whenever the specification says the rest of
the annotation (current nesting depth `d + 1`) closes properly and the text
after its closing brace strips to `out`, the loop returns the index `r` of
that closing brace. -/
theorem skipLoop_spec (s : List Char) : ∀ fuel b d ia : Nat, ∀ out : List Char,
    s.length - b ≤ fuel →
    spec_stripped_text (s.drop b) (d + 1) = some out →
    ∃ r : Nat, skipLoop s ia b ((d : Int) + 1) = Except.ok r ∧ b ≤ r ∧ r < s.length ∧
      s[r]? = some right_brace ∧ spec_stripped_text (s.drop (r + 1)) 0 = some out := by
  intro fuel
  induction fuel with
  | zero =>
    intro b d ia out hf hspec
    exfalso
    rw [List.drop_eq_nil_of_le (by omega)] at hspec
    simp [spec_stripped_text] at hspec
  | succ fuel ih =>
    intro b d ia out hf hspec
    rcases scan_cases s b with ⟨he, hnb⟩ | ⟨n, h1, h2, hmin, hc⟩
    · exfalso
      by_cases hbl : b ≤ s.length
      · have hk := spec_skip_of_no_brace s d (s.length - b) b (by omega)
          (fun j hj1 _ => hnb j hj1)
        rw [show b + (s.length - b) = s.length by omega, List.drop_length] at hk
        rw [hk] at hspec
        simp [spec_stripped_text] at hspec
      · rw [List.drop_eq_nil_of_le (by omega)] at hspec
        simp [spec_stripped_text] at hspec
    · have hskp := spec_skip_of_no_brace s d (n - b) b (by omega)
        (fun j hj1 hj2 => hmin j hj1 (by omega))
      rw [show b + (n - b) = n by omega] at hskp
      rcases hc with ⟨hg, he⟩ | ⟨hg, he⟩
      · rw [hskp, drop_eq_cons_of_getElem? hg, spec_cons_right_pos] at hspec
        by_cases hd : d = 0
        · subst hd
          refine ⟨n, ?_, h1, h2, hg, hspec⟩
          rw [skipLoop_right_step s ia b n (((0 : Nat) : Int) + 1) he]
          rw [if_neg (by omega)]
        · obtain ⟨d2, rfl⟩ : ∃ d2, d = d2 + 1 := ⟨d - 1, by omega⟩
          obtain ⟨r, hok, hbr, hrl, hgr, hsp⟩ := ih (n + 1) d2 ia out (by omega) hspec
          refine ⟨r, ?_, by omega, hrl, hgr, hsp⟩
          rw [skipLoop_right_step s ia b n (((d2 + 1 : Nat) : Int) + 1) he]
          rw [if_pos (by omega)]
          rw [show (((d2 + 1 : Nat) : Int) + 1) - 1 = ((d2 : Nat) : Int) + 1 by push_cast; omega]
          exact hok
      · rw [hskp, drop_eq_cons_of_getElem? hg, spec_cons_left_pos] at hspec
        have hspec2 : spec_stripped_text (s.drop (n + 1)) ((d + 1) + 1) = some out := hspec
        obtain ⟨r, hok, hbr, hrl, hgr, hsp⟩ := ih (n + 1) (d + 1) ia out (by omega) hspec2
        refine ⟨r, ?_, by omega, hrl, hgr, hsp⟩
        rw [skipLoop_left_step s ia b n (((d : Nat) : Int) + 1) he]
        rw [if_pos (by omega)]
        rw [show (((d : Nat) : Int) + 1) + 1 = (((d + 1 : Nat) : Int) + 1) by push_cast; omega]
        exact hok

/-- Refinement of the main loop: whenever the specification says the suffix
`s[b:]` is balanced and strips to `out`, the loop succeeds and appends to the
accumulator a list of saved substrings whose concatenation is `out`. -/
theorem stripLoop_spec (s : List Char) : ∀ fuel b : Nat, ∀ acc : List (List Char),
    ∀ out : List Char,
    s.length - b ≤ fuel →
    spec_stripped_text (s.drop b) 0 = some out →
    ∃ ps : List (List Char), stripLoop s b acc = Except.ok (acc ++ ps) ∧ ps.flatten = out := by
  intro fuel
  induction fuel with
  | zero =>
    intro b acc out hf hspec
    rw [List.drop_eq_nil_of_le (by omega)] at hspec
    simp only [spec_stripped_text, Option.some.injEq] at hspec
    refine ⟨[], ?_, by simp [← hspec]⟩
    rw [stripLoop_exit_step s b acc (by omega)]
    simp
  | succ fuel ih =>
    intro b acc out hf hspec
    by_cases hblen : b < s.length
    · rcases scan_cases s b with ⟨he, hnb⟩ | ⟨n, h1, h2, hmin, hc⟩
      · have hkeep := spec_keep_of_no_brace s (s.length - b) b (by omega)
          (fun j hj1 _ => hnb j hj1)
        rw [show b + (s.length - b) = s.length by omega, List.drop_length] at hkeep
        rw [hkeep] at hspec
        simp [spec_stripped_text] at hspec
        refine ⟨[pySlice s b s.length], ?_, by simp [hspec]⟩
        rw [stripLoop_none_step s b acc hblen he]
        unfold save_current_substring
        rw [if_pos (by omega)]
      · have hkeep := spec_keep_of_no_brace s (n - b) b (by omega)
          (fun j hj1 hj2 => hmin j hj1 (by omega))
        rw [show b + (n - b) = n by omega] at hkeep
        rcases hc with ⟨hg, he⟩ | ⟨hg, he⟩
        · exfalso
          rw [hkeep, drop_eq_cons_of_getElem? hg, spec_cons_right_zero] at hspec
          simp at hspec
        · rw [hkeep, drop_eq_cons_of_getElem? hg, spec_cons_left_zero] at hspec
          rcases hsp1 : spec_stripped_text (s.drop (n + 1)) 1 with _ | out1
          · rw [hsp1] at hspec
            simp at hspec
          · rw [hsp1] at hspec
            simp at hspec
            obtain ⟨r, hok, hbr, hrl, hgr, hsp0⟩ :=
              skipLoop_spec s (s.length - (n + 1)) (n + 1) 0 (n + 1) out1 (le_refl _) hsp1
            have hok1 : skip_over_remainder_of_balanced_expression s (n + 1) = Except.ok r := by
              unfold skip_over_remainder_of_balanced_expression
              norm_num at hok
              exact hok
            obtain ⟨ps1, hrec, hfl⟩ :=
              ih (r + 1) (save_current_substring s acc b n) out1 (by omega) hsp0
            refine ⟨pySlice s b n :: ps1, ?_, ?_⟩
            · rw [stripLoop_left_step_ok s b n r acc hblen he hok1, hrec]
              unfold save_current_substring
              rw [if_pos (by omega)]
              simp
            · rw [List.flatten_cons, hfl, ← hspec]
    · rw [List.drop_eq_nil_of_le (by omega)] at hspec
      simp only [spec_stripped_text, Option.some.injEq] at hspec
      refine ⟨[], ?_, by simp [← hspec]⟩
      rw [stripLoop_exit_step s b acc (by omega)]
      simp

/-- Refinement at the level of `strip_balanced_braces_from_string`: on any
input whose annotations the specification deems balanced, the function
succeeds and returns exactly the specification's output. -/
theorem strip_models_spec (s out : List Char) (h : spec_stripped_text s 0 = some out) :
    strip_balanced_braces_from_string s = Except.ok out := by
  obtain ⟨ps, hok, hfl⟩ := stripLoop_spec s s.length 0 [] out (by omega)
    (by rw [List.drop_zero]; exact h)
  unfold strip_balanced_braces_from_string
  rw [hok]
  simp [Except.map, hfl]

theorem stripLoop_ok_no_brace (s : List Char) : ∀ fuel b : Nat, ∀ acc L : List (List Char),
    s.length - b ≤ fuel →
    stripLoop s b acc = Except.ok L →
    (∀ p ∈ acc, brace_free p) → ∀ p ∈ L, brace_free p := by
  intro fuel
  induction fuel with
  | zero =>
    intro b acc L hf hok hacc
    rw [stripLoop_exit_step s b acc (by omega)] at hok
    obtain rfl : acc = L := Except.ok.inj hok
    exact hacc
  | succ fuel ih =>
    intro b acc L hf hok hacc
    by_cases hblen : b < s.length
    · rcases scan_cases s b with ⟨he, hnb⟩ | ⟨n, h1, h2, hmin, hc⟩
      · rw [stripLoop_none_step s b acc hblen he] at hok
        obtain rfl := Except.ok.inj hok
        intro p hp
        unfold save_current_substring at hp
        rw [if_pos (by omega)] at hp
        rcases List.mem_append.mp hp with hp1 | hp2
        · exact hacc p hp1
        · have hps : p = pySlice s b s.length := by simpa using hp2
          subst hps
          exact (no_brace_between_iff s b s.length).mp (fun j hj1 _ => hnb j hj1)
      · rcases hc with ⟨hg, he⟩ | ⟨hg, he⟩
        · rw [stripLoop_right_step s b n acc hblen he] at hok
          exact absurd hok (by simp)
        · rcases hsk : skip_over_remainder_of_balanced_expression s (n + 1) with e1 | r
          · rw [stripLoop_left_step_error s b n acc e1 hblen he hsk] at hok
            exact absurd hok (by simp)
          · rw [stripLoop_left_step_ok s b n r acc hblen he hsk] at hok
            have hbnds := skip_over_ok_bounds hsk
            refine ih (r + 1) _ L (by omega) hok ?_
            intro p hp
            unfold save_current_substring at hp
            rw [if_pos (by omega)] at hp
            rcases List.mem_append.mp hp with hp1 | hp2
            · exact hacc p hp1
            · have hps : p = pySlice s b n := by simpa using hp2
              subst hps
              exact (no_brace_between_iff s b n).mp hmin
    · rw [stripLoop_exit_step s b acc (by omega)] at hok
      obtain rfl : acc = L := Except.ok.inj hok
      exact hacc

/-- Whenever the stripper succeeds, its output contains no brace character of
either kind. -/
theorem strip_ok_brace_free {s out : List Char}
    (h : strip_balanced_braces_from_string s = Except.ok out) : brace_free out := by
  unfold strip_balanced_braces_from_string at h
  rcases hs : stripLoop s 0 [] with e | L
  · rw [hs] at h
    exact absurd h (by simp [Except.map])
  · rw [hs] at h
    have hout : L.flatten = out := by simpa [Except.map] using h
    have hall := stripLoop_ok_no_brace s s.length 0 [] L (by omega) hs (by simp)
    intro c hc
    rw [← hout] at hc
    obtain ⟨p, hp, hcp⟩ := List.mem_flatten.mp hc
    exact hall p hp c hcp

theorem spec_of_brace_free : ∀ l : List Char, brace_free l → spec_stripped_text l 0 = some l := by
  intro l
  induction l with
  | nil =>
    intro _
    rfl
  | cons c rest ih =>
    intro h
    have hc := h c (by simp)
    simp only [spec_stripped_text]
    rw [if_neg hc.1, if_neg hc.2, ih (fun x hx => h x (by simp [hx]))]
    rfl

/-- A brace-free string passes through the stripper unchanged. -/
theorem strip_of_brace_free {s : List Char} (h : brace_free s) :
    strip_balanced_braces_from_string s = Except.ok s :=
  strip_models_spec s s (spec_of_brace_free s h)

/-- If no delimiter of either kind occurs at or after the scanning base, the
inner loop aborts with `UnmatchedOpeningDelimiter` at
`index_after_first_left_brace - 1`, whatever the current imbalance count. -/
theorem skipLoop_no_brace_error (s : List Char) (ia b : Nat) (net : Int)
    (h : no_brace_from s b) :
    skipLoop s ia b net = Except.error (PGNFault.unmatchedOpeningDelimiter (ia - 1)) :=
  skipLoop_none_step s ia b net (by rw [scan_eq_none_of s b h])

theorem stripLoop_unexpected_close (s : List Char) (b j : Nat) (acc : List (List Char))
    (hbj : b ≤ j) (hg : s[j]? = some right_brace) (hnb : no_brace_between s b j) :
    stripLoop s b acc = Except.error (PGNFault.unexpectedClosingDelimiter j) := by
  have hlen : j < s.length := getElem?_lt_length hg
  exact stripLoop_right_step s b j acc (by omega) (scan_eq_right_of s b j hbj hg hnb)

theorem strip_unexpected_close (s : List Char) (j : Nat)
    (hg : s[j]? = some right_brace) (hnb : no_brace_between s 0 j) :
    strip_balanced_braces_from_string s =
      Except.error (PGNFault.unexpectedClosingDelimiter j) := by
  unfold strip_balanced_braces_from_string
  rw [stripLoop_unexpected_close s 0 j [] (by omega) hg hnb]
  rfl

theorem stripLoop_unmatched_open (s : List Char) (b i : Nat) (acc : List (List Char))
    (hbi : b ≤ i) (hg : s[i]? = some left_brace) (hnb : no_brace_between s b i)
    (hafter : no_brace_from s (i + 1)) :
    stripLoop s b acc = Except.error (PGNFault.unmatchedOpeningDelimiter i) := by
  have hlen : i < s.length := getElem?_lt_length hg
  have hscan := scan_eq_left_of s b i hbi hg hnb
  have hsk : skip_over_remainder_of_balanced_expression s (i + 1) =
      Except.error (PGNFault.unmatchedOpeningDelimiter i) := by
    unfold skip_over_remainder_of_balanced_expression
    have hh := skipLoop_no_brace_error s (i + 1) (i + 1) 1 hafter
    simpa using hh
  exact stripLoop_left_step_error s b i acc _ (by omega) hscan hsk

theorem strip_unmatched_open (s : List Char) (i : Nat)
    (hg : s[i]? = some left_brace) (hnb : no_brace_between s 0 i)
    (hafter : no_brace_from s (i + 1)) :
    strip_balanced_braces_from_string s =
      Except.error (PGNFault.unmatchedOpeningDelimiter i) := by
  unfold strip_balanced_braces_from_string
  rw [stripLoop_unmatched_open s 0 i [] (by omega) hg hnb hafter]
  rfl

/-- The whitespace characters on which Python's `str.split()` bursts and
which `str.lstrip()` removes, restricted to the ASCII range relevant to PGN
text: space, tab, newline, vertical tab, form feed, carriage return. -/
def isPythonSpace (c : Char) : Bool :=
  c == ' ' || c == '\t' || c == '\n' || c == '\x0b' || c == '\x0c' || c == '\r'

/-- Helper for `pySplit`: walks the string, accumulating the current burst in
reverse; whitespace ends the current burst (if non-empty) and consecutive
whitespace produces nothing. -/
def pySplitAux : List Char → List Char → List (List Char)
  | acc, [] => if acc = [] then [] else [acc.reverse]
  | acc, c :: rest =>
      if isPythonSpace c then
        if acc = [] then pySplitAux [] rest
        else acc.reverse :: pySplitAux [] rest
      else pySplitAux (c :: acc) rest

/-- Python's `pgnstring.split()` with no arguments: splits on maximal runs of
whitespace, discarding empty bursts (so leading/trailing whitespace produces
nothing). -/
def pySplit (s : List Char) : List (List Char) := pySplitAux [] s

/-- The character class `[A-Za-z()]` at which the move-number stripper stops:
ASCII letters and the two parentheses. -/
def is_alpha_or_paren (c : Char) : Bool :=
  (65 ≤ c.toNat && c.toNat ≤ 90) || (97 ≤ c.toNat && c.toNat ≤ 122) || c == '(' || c == ')'

/-- `strip_leading_movenumber_indication`: the `re.sub` of pattern
`^[^A-Za-z()]+` with the empty string, i.e. removal of the maximal leading
run of characters that are neither ASCII letters nor parentheses. -/
def strip_leading_movenumber_indication (string_to_strip : List Char) : List Char :=
  string_to_strip.dropWhile (fun c => !(is_alpha_or_paren c))

/-- `tokenize_pgnstring`: bursts the string at whitespace, strips any leading
move-number indication from each burst, and removes any empty token. -/
def tokenize_pgnstring (pgnstring : List Char) : List (List Char) :=
  List.filter (fun token => !(token.isEmpty))
    (List.map strip_leading_movenumber_indication (pySplit pgnstring))

/-- Python's `str.lstrip()`: removes leading whitespace. -/
def lstrip (l : List Char) : List Char := l.dropWhile isPythonSpace

/-- `extract_game_1_movetext`, parameterized by the external boundary locator
`id_text_between_first_two_blankish_lines` (defined in the `utilities`
module, outside this core; spec §6 calls it the boundary locator, returning
`(start, end)` with either component possibly absent).  No first boundary is
the fatal fault raised by `pgn_error_no_blank_line_after_headers`; otherwise
the movetext is the slice from the first boundary to the second (or to end of
string when the second is absent), with leading whitespace then removed. -/
def extract_game_1_movetext
    (id_text_between_first_two_blankish_lines : List Char → Option Nat × Option Nat)
    (string_read_from_file : List Char) : Except PGNFault (List Char) :=
  match id_text_between_first_two_blankish_lines string_read_from_file with
  | (none, _) => Except.error PGNFault.noBlankLineAfterHeaders
  | (some start_index, none) =>
      Except.ok (lstrip (string_read_from_file.drop start_index))
  | (some start_index, some end_index) =>
      Except.ok (lstrip (pySlice string_read_from_file start_index end_index))

/-- `clean_and_parse_string_read_from_file`: extracts the game-1 movetext,
strips brace annotations, raises the fatal `"No valid movetext found"` fault
exactly when the stripped movetext is the empty string, and otherwise
tokenizes it. -/
def clean_and_parse_string_read_from_file
    (id_text_between_first_two_blankish_lines : List Char → Option Nat × Option Nat)
    (string_read_from_file : List Char) : Except PGNFault (List (List Char)) :=
  match extract_game_1_movetext id_text_between_first_two_blankish_lines
      string_read_from_file with
  | Except.error e => Except.error e
  | Except.ok pgnstring0 =>
      match strip_balanced_braces_from_string pgnstring0 with
      | Except.error e => Except.error e
      | Except.ok pgnstring =>
          if pgnstring = [] then Except.error PGNFault.emptyMovetext
          else Except.ok (tokenize_pgnstring pgnstring)

theorem clean_of_strip_ok (locate : List Char → Option Nat × Option Nat)
    (s m p : List Char)
    (hex : extract_game_1_movetext locate s = Except.ok m)
    (hst : strip_balanced_braces_from_string m = Except.ok p)
    (hne : p ≠ []) :
    clean_and_parse_string_read_from_file locate s = Except.ok (tokenize_pgnstring p) := by
  unfold clean_and_parse_string_read_from_file
  rw [hex]
  dsimp only
  rw [hst]
  dsimp only
  rw [if_neg hne]

/-- C1: for every input string whose brace-delimited spans are balanced
(captured by the specification-side `spec_stripped_text` at depth 0),
`strip_balanced_braces_from_string` succeeds and returns the concatenation,
in source order, of exactly the characters outside every top-level span, with
each full (possibly nested) span from its opening brace through its matching
closing brace omitted entirely; in particular, with only non-nested spans the
output is the input with every braced span deleted verbatim, and
`"before{a{b{c}d}e}after"` yields `"beforeafter"` (the witness). -/
theorem claim_C1 (s out : List Char) (h : spec_stripped_text s 0 = some out) :
    strip_balanced_braces_from_string s = Except.ok out :=
  strip_models_spec s out h

theorem claim_C1_witness :
    strip_balanced_braces_from_string ("before\x7ba\x7bb\x7bc\x7dd\x7de\x7dafter".toList) =
      Except.ok ("beforeafter".toList) :=
  claim_C1 ("before\x7ba\x7bb\x7bc\x7dd\x7de\x7dafter".toList) ("beforeafter".toList)
    (by decide)

/-- C2: if, while resolving an annotation opened at index `i` (so the inner
loop was entered with `index_after_first_left_brace = i + 1`), the nesting
count is still positive and the end of the string is reached with no further
delimiter at or after the scanning base, the loop raises the fatal fault
`UnmatchedOpeningDelimiter` reporting index `i` and produces no return value
(`Except.error`); concretely, `strip_balanced_braces_from_string` on
`"text{unclosed"` aborts with reported index 4. -/
theorem claim_C2 :
    (∀ (s : List Char) (i b : Nat) (net : Int), 0 < net → brace_free (s.drop b) →
        skipLoop s (i + 1) b net = Except.error (PGNFault.unmatchedOpeningDelimiter i))
    ∧ strip_balanced_braces_from_string ("text\x7bunclosed".toList) =
        Except.error (PGNFault.unmatchedOpeningDelimiter 4) := by
  constructor
  · intro s i b net _ hbf
    have hh := skipLoop_no_brace_error s (i + 1) b net ((no_brace_from_iff s b).mpr hbf)
    simpa using hh
  · apply strip_unmatched_open ("text\x7bunclosed".toList) 4
    · decide
    · exact (no_brace_between_iff ("text\x7bunclosed".toList) 0 4).mpr (by decide)
    · exact (no_brace_from_iff ("text\x7bunclosed".toList) 5).mpr (by decide)

theorem claim_C2_witness :
    skipLoop ("ab".toList) (0 + 1) 1 1 =
      Except.error (PGNFault.unmatchedOpeningDelimiter 0) :=
  claim_C2.1 ("ab".toList) 0 1 1 (by decide) (by decide)

/-- C3: if, while scanning at top-level balance (the main loop, entered only
in a balanced state), the next delimiter at or after the cursor is a closing
brace at index `j`, the stripper raises the fatal fault
`UnexpectedClosingDelimiter` reporting index `j` and produces no return
value; concretely, `strip_balanced_braces_from_string` on `"text}"` aborts
with reported index 4. -/
theorem claim_C3 :
    (∀ (s : List Char) (b j : Nat) (acc : List (List Char)), b ≤ j →
        s[j]? = some right_brace → brace_free (pySlice s b j) →
        stripLoop s b acc = Except.error (PGNFault.unexpectedClosingDelimiter j))
    ∧ strip_balanced_braces_from_string ("text\x7d".toList) =
        Except.error (PGNFault.unexpectedClosingDelimiter 4) := by
  constructor
  · intro s b j acc hbj hg hbf
    exact stripLoop_unexpected_close s b j acc hbj hg ((no_brace_between_iff s b j).mpr hbf)
  · apply strip_unexpected_close ("text\x7d".toList) 4
    · decide
    · exact (no_brace_between_iff ("text\x7d".toList) 0 4).mpr (by decide)

theorem claim_C3_witness :
    stripLoop ("ab\x7d".toList) 0 [] =
      Except.error (PGNFault.unexpectedClosingDelimiter 2) :=
  claim_C3.1 ("ab\x7d".toList) 0 2 [] (by decide) (by decide) (by decide)

/-- C4: `tokenize_pgnstring` splits on maximal whitespace runs, strips from
each burst its maximal leading run of characters that are neither ASCII
letters nor parentheses, drops bursts that become empty, and returns the
survivors in source order; hence every returned token is non-empty,
`"1.e4 e5 2.Nf3 Nc6"` tokenizes to `e4, e5, Nf3, Nc6`, and in `"1. e4 e5"`
the burst `"1."` strips to empty and is dropped. -/
theorem claim_C4 :
    (∀ s : List Char, ∀ t ∈ tokenize_pgnstring s, t ≠ [])
    ∧ tokenize_pgnstring ("1.e4 e5 2.Nf3 Nc6".toList) =
        ["e4".toList, "e5".toList, "Nf3".toList, "Nc6".toList]
    ∧ strip_leading_movenumber_indication ("1.".toList) = []
    ∧ tokenize_pgnstring ("1. e4 e5".toList) = ["e4".toList, "e5".toList] := by
  refine ⟨?_, by decide, by decide, by decide⟩
  intro s t ht
  have hf := (List.mem_filter.mp ht).2
  intro hnil
  subst hnil
  simp at hf

theorem claim_C4_witness : "e4".toList ≠ ([] : List Char) :=
  claim_C4.1 ("e4".toList) ("e4".toList) (by decide)

/-- C5: `scan_for_next_brace` (at the delimiters actually used) returns the
smallest index at or after the start offset holding either brace character,
with the flag identifying which one; if neither occurs at or after the
offset, it signals not-found as index `-1` with both flags false.  The three
conjuncts cover the three mutually exclusive situations and pin the result in
each. -/
theorem claim_C5 (s : List Char) (b : Nat) :
    (brace_free (s.drop b) →
        scan_for_next_brace s b left_brace right_brace = (-1, false, false))
    ∧ (∀ n : Nat, b ≤ n → s[n]? = some right_brace → brace_free (pySlice s b n) →
        scan_for_next_brace s b left_brace right_brace = (((n : Nat) : Int), true, false))
    ∧ (∀ n : Nat, b ≤ n → s[n]? = some left_brace → brace_free (pySlice s b n) →
        scan_for_next_brace s b left_brace right_brace = (((n : Nat) : Int), false, true)) := by
  refine ⟨?_, ?_, ?_⟩
  · intro h
    exact scan_eq_none_of s b ((no_brace_from_iff s b).mpr h)
  · intro n hbn hg hbf
    exact scan_eq_right_of s b n hbn hg ((no_brace_between_iff s b n).mpr hbf)
  · intro n hbn hg hbf
    exact scan_eq_left_of s b n hbn hg ((no_brace_between_iff s b n).mpr hbf)

theorem claim_C5_witness :
    scan_for_next_brace ("ab\x7bd".toList) 0 left_brace right_brace =
      ((((2 : Nat)) : Int), false, true) :=
  (claim_C5 ("ab\x7bd".toList) 0).2.2 2 (by decide) (by decide) (by decide)

/-- C6: whenever `strip_balanced_braces_from_string` completes successfully,
its output contains no unmatched brace of either kind — indeed no `{` or `}`
character at all. -/
theorem claim_C6 (s out : List Char)
    (h : strip_balanced_braces_from_string s = Except.ok out) :
    ¬ left_brace ∈ out ∧ ¬ right_brace ∈ out := by
  have hbf := strip_ok_brace_free h
  constructor
  · intro hmem
    exact (hbf left_brace hmem).1 rfl
  · intro hmem
    exact (hbf right_brace hmem).2 rfl

theorem claim_C6_witness :
    ¬ left_brace ∈ ("ac".toList) ∧ ¬ right_brace ∈ ("ac".toList) :=
  claim_C6 ("a\x7bb\x7dc".toList) ("ac".toList)
    (strip_models_spec ("a\x7bb\x7dc".toList) ("ac".toList) (by decide))

/-- C7: on the success range, `strip_balanced_braces_from_string` is
idempotent — applying it to its own output returns that output unchanged. -/
theorem claim_C7 (s out : List Char)
    (h : strip_balanced_braces_from_string s = Except.ok out) :
    strip_balanced_braces_from_string out = Except.ok out :=
  strip_of_brace_free (strip_ok_brace_free h)

theorem claim_C7_witness :
    strip_balanced_braces_from_string ("ac".toList) = Except.ok ("ac".toList) :=
  claim_C7 ("a\x7bb\x7dc".toList) ("ac".toList)
    (strip_models_spec ("a\x7bb\x7dc".toList) ("ac".toList) (by decide))

/-- C8: when the external boundary locator reports a first boundary and no
second one, `extract_game_1_movetext` returns the substring from the first
boundary to end of text, left-trimmed of leading whitespace; when it reports
both boundaries, the substring between them, left-trimmed. -/
theorem claim_C8 :
    (∀ (locate : List Char → Option Nat × Option Nat) (s : List Char) (st : Nat),
        locate s = (some st, none) →
        extract_game_1_movetext locate s = Except.ok (lstrip (s.drop st)))
    ∧ (∀ (locate : List Char → Option Nat × Option Nat) (s : List Char) (st en : Nat),
        locate s = (some st, some en) →
        extract_game_1_movetext locate s = Except.ok (lstrip (pySlice s st en))) := by
  constructor
  · intro locate s st hloc
    unfold extract_game_1_movetext
    rw [hloc]
  · intro locate s st en hloc
    unfold extract_game_1_movetext
    rw [hloc]

theorem claim_C8_witness :
    extract_game_1_movetext (fun _ => (some 1, none)) (" a b".toList) =
      Except.ok (lstrip ((" a b".toList).drop 1)) :=
  claim_C8.1 (fun _ => (some 1, none)) (" a b".toList) 1 rfl

/-- C9: the emptiness check of `clean_and_parse_string_read_from_file` fires
only when the brace-stripped movetext is exactly the empty string and runs
before tokenization, so the pipeline can succeed with zero tokens: whenever
extraction and stripping succeed with a non-empty string, the result is the
token list (conjunct 1), and for movetext `"*"` — or an annotation followed
by a space — that token list is empty yet no fault is raised. -/
theorem claim_C9 :
    (∀ (locate : List Char → Option Nat × Option Nat) (s m p : List Char),
        extract_game_1_movetext locate s = Except.ok m →
        strip_balanced_braces_from_string m = Except.ok p → p ≠ [] →
        clean_and_parse_string_read_from_file locate s =
          Except.ok (tokenize_pgnstring p))
    ∧ clean_and_parse_string_read_from_file (fun _ => (some 0, none)) ("*".toList) =
        Except.ok []
    ∧ clean_and_parse_string_read_from_file (fun _ => (some 0, none))
        ("\x7bnote\x7d ".toList) = Except.ok [] := by
  refine ⟨clean_of_strip_ok, ?_, ?_⟩
  · have hex : extract_game_1_movetext (fun _ => (some 0, none)) ("*".toList) =
        Except.ok ("*".toList) := rfl
    have hst : strip_balanced_braces_from_string ("*".toList) = Except.ok ("*".toList) :=
      strip_of_brace_free (by decide)
    have hh := clean_of_strip_ok (fun _ => (some 0, none)) ("*".toList) ("*".toList)
      ("*".toList) hex hst (by decide)
    rw [hh]
    have ht : tokenize_pgnstring ("*".toList) = [] := by decide
    rw [ht]
  · have hex : extract_game_1_movetext (fun _ => (some 0, none)) ("\x7bnote\x7d ".toList) =
        Except.ok ("\x7bnote\x7d ".toList) := rfl
    have hst : strip_balanced_braces_from_string ("\x7bnote\x7d ".toList) =
        Except.ok (" ".toList) :=
      strip_models_spec ("\x7bnote\x7d ".toList) (" ".toList) (by decide)
    have hh := clean_of_strip_ok (fun _ => (some 0, none)) ("\x7bnote\x7d ".toList)
      ("\x7bnote\x7d ".toList) (" ".toList) hex hst (by decide)
    rw [hh]
    have ht : tokenize_pgnstring (" ".toList) = [] := by decide
    rw [ht]

theorem claim_C9_witness :
    clean_and_parse_string_read_from_file (fun _ => (some 0, none)) ("e4".toList) =
      Except.ok (tokenize_pgnstring ("e4".toList)) :=
  claim_C9.1 (fun _ => (some 0, none)) ("e4".toList) ("e4".toList) ("e4".toList) rfl
    (strip_of_brace_free (by decide)) (by decide)

/-- C10: every result of `scan_for_next_brace` is well-formed: the two flags
are never both true; both are false exactly when the returned index is `-1`;
and when the index is not `-1` it is at least the start offset, in range, and
the character there is the brace kind indicated by the true flag. -/
theorem claim_C10 (s : List Char) (b : Nat) (i : Int) (fr fl : Bool)
    (h : scan_for_next_brace s b left_brace right_brace = (i, fr, fl)) :
    (¬(fr = true ∧ fl = true))
    ∧ (i = -1 ↔ (fr = false ∧ fl = false))
    ∧ (i ≠ -1 → b ≤ i.toNat ∧ i.toNat < s.length ∧
        (fr = true → s[i.toNat]? = some right_brace)
        ∧ (fl = true → s[i.toNat]? = some left_brace)) := by
  rcases scan_cases s b with ⟨he, -⟩ | ⟨n, h1, h2, -, ⟨hg, he⟩ | ⟨hg, he⟩⟩
  · rw [h] at he
    simp only [Prod.mk.injEq] at he
    obtain ⟨rfl, rfl, rfl⟩ := he
    exact ⟨by simp, by simp, by simp⟩
  · rw [h] at he
    simp only [Prod.mk.injEq] at he
    obtain ⟨rfl, rfl, rfl⟩ := he
    refine ⟨by simp, ?_, ?_⟩
    · constructor
      · intro hh
        exact absurd hh (by omega)
      · rintro ⟨hh, -⟩
        exact absurd hh (by simp)
    · intro _
      refine ⟨by simpa using h1, by simpa using h2, fun _ => by simpa using hg, ?_⟩
      intro hff
      exact absurd hff (by simp)
  · rw [h] at he
    simp only [Prod.mk.injEq] at he
    obtain ⟨rfl, rfl, rfl⟩ := he
    refine ⟨by simp, ?_, ?_⟩
    · constructor
      · intro hh
        exact absurd hh (by omega)
      · rintro ⟨-, hh⟩
        exact absurd hh (by simp)
    · intro _
      refine ⟨by simpa using h1, by simpa using h2, ?_, fun _ => by simpa using hg⟩
      intro hff
      exact absurd hff (by simp)

theorem claim_C10_witness :
    (¬((false : Bool) = true ∧ (true : Bool) = true))
    ∧ ((1 : Int) = -1 ↔ ((false : Bool) = false ∧ (true : Bool) = false))
    ∧ ((1 : Int) ≠ -1 → 0 ≤ (1 : Int).toNat ∧ (1 : Int).toNat < ("x\x7by".toList).length ∧
        ((false : Bool) = true → ("x\x7by".toList)[(1 : Int).toNat]? = some right_brace)
        ∧ ((true : Bool) = true → ("x\x7by".toList)[(1 : Int).toNat]? = some left_brace)) :=
  claim_C10 ("x\x7by".toList) 0 1 false true (by decide)

end PGN4People
